import Mathlib

/-!
Verification development for the `icu_ex` native formatting layer
(`src/native/icu_nif/src/{number,list,datetime}.rs`).

The development shallowly embeds:
* the decimal value model (`fixed_decimal::Decimal`) and the operations the
  repository calls on it (`round`, `pad_start`, `pad_end`, `multiply_pow10`,
  `set_sign`, `apply_sign_display`);
* `apply_config` and `decode_formatter_config` from `number.rs`;
* `try_decode_decimal_struct` from `number.rs`;
* the span-collecting text sink (`PartsCollector::with_part`, duplicated in
  `number.rs`, `list.rs` and `datetime.rs`);
* the parts extraction of `temporal_format_to_parts` from `datetime.rs`;
* `decode_temporal` from `datetime.rs` and `decode_formatter_config` from
  `list.rs`.

Erlang terms are modelled by the `Value` type: an atom (by its name), an
integer (Erlang integers are unbounded; the i64 / i32 / u32 decodes of
`rustler` are modelled by explicit range checks), a 2-tuple of integers,
a string, or anything else.  Byte offsets into the UTF-8 output buffer are
modelled as positions into a `List Char`: every offset the collector records
lies on a boundary of a written chunk, so the two are related by a monotone
bijection and all offset/slice reasoning transfers unchanged.
-/

/-- Sign of a decimal value, as in `fixed_decimal::Sign`
(`None` renders with no sign glyph). -/
inductive Sign where
  | negative
  | nosign
  | positive
deriving DecidableEq

/-- Model of `fixed_decimal::Decimal`: the represented number is
`sign * num * 10^exp`; `upper` and `lower` are the highest and lowest
displayed digit positions (they control zero padding, not the value). -/
structure FixedDec where
  sign : Sign
  num : Nat
  exp : Int
  upper : Int
  lower : Int
deriving DecidableEq

/-- Numeric factor of a sign. -/
def signFactor : Sign → ℚ
  | Sign.negative => -1
  | _ => 1

/-- Rational value represented by a decimal (display bounds are irrelevant
to the value). -/
def val (d : FixedDec) : ℚ :=
  signFactor d.sign * (d.num : ℚ) * (10 : ℚ) ^ d.exp

/-- Base-10 digit position of the most significant digit of `n` (its number
of digits minus one), by structural fuel recursion (`n` itself bounds the
recursion depth). -/
def msdAux : Nat → Nat → Nat
  | 0, _ => 0
  | fuel + 1, n => if n < 10 then 0 else msdAux fuel (n / 10) + 1

/-- Digit position of the most significant digit of `n`. -/
def msdNat (n : Nat) : Nat := msdAux n n

/-- Position of the most significant digit of `n` when its lowest digit sits
at position `e` (0 for `n = 0`, matching the zero decimal). -/
def msdPos (n : Nat) (e : Int) : Int :=
  if n = 0 then 0 else e + (msdNat n : Int)

/-- Model of `FixedDecimal::from(i : i64)` (and of the extensionally equal
big-integer path `FixedDecimal::try_from_str(&i.to_string())`): exact value,
exponent 0, display bounds covering exactly the digits of `i`. -/
def fromInt (i : Int) : FixedDec :=
  ⟨if i < 0 then Sign.negative else Sign.nosign, i.natAbs, 0,
    msdPos i.natAbs 0, 0⟩

/-- Modelled from the spec: `multiply_pow10` performs a symbolic exponent
adjustment ("scaling is a symbolic exponent adjustment, not digit
materialization, so it is exact"); the display bounds shift with the value
while still covering the ones place.  The library source
(`fixed_decimal`) is outside the repository. -/
def multiplyPow10 (d : FixedDec) (delta : Int) : FixedDec :=
  ⟨d.sign, d.num, d.exp + delta, max (d.upper + delta) 0, min (d.lower + delta) 0⟩

/-- Model of `decimal.set_sign(Sign::Negative)`. -/
def setSignNegative (d : FixedDec) : FixedDec :=
  ⟨Sign.negative, d.num, d.exp, d.upper, d.lower⟩

/-- Divide `n` by `m` rounding half to even (banker's rounding);
meaningful for even positive `m`. -/
def halfEvenDiv (n m : Nat) : Nat :=
  if m / 2 < n % m then n / m + 1
  else if n % m < m / 2 then n / m
  else if (n / m) % 2 = 0 then n / m else n / m + 1

/-- Divide `n` by `10^k` rounding half to even.  Only invoked with
`0 < k`. -/
def halfEvenScale (n k : Nat) : Nat :=
  halfEvenDiv n (10 ^ k)

/-- Modelled from the spec: `FixedDecimal::round(position)` rounds the
magnitude at digit position `position` using round half to even, dropping
all digits below that position; the lowest displayed position becomes
`min position 0`.  The library source is outside the repository. -/
def roundHalfEven (d : FixedDec) (p : Int) : FixedDec :=
  if p ≤ d.exp then
    ⟨d.sign, d.num, d.exp, d.upper, min p 0⟩
  else
    let n2 := halfEvenScale d.num (p - d.exp).toNat
    ⟨d.sign, n2, p, max d.upper (msdPos n2 p), min p 0⟩

/-- Modelled from the spec / library: `pad_start(position)` zero-pads on the
left until the integer part reaches `position` digits: it raises `upper` to
`position - 1` and never shrinks it (value unchanged). -/
def padStart (d : FixedDec) (p : Int) : FixedDec :=
  if p ≤ 0 then d
  else if p - 1 ≤ d.upper then d
  else ⟨d.sign, d.num, d.exp, p - 1, d.lower⟩

/-- Modelled from the spec / library: `pad_end(position)` (with
`position < 0`) zero-pads on the right until the fraction part reaches
`-position` digits: it lowers `lower` to `position` and never raises it
(value unchanged). -/
def padEnd (d : FixedDec) (p : Int) : FixedDec :=
  if 0 ≤ p then d
  else if d.lower ≤ p then d
  else ⟨d.sign, d.num, d.exp, d.upper, p⟩

/-- Sign display policy, as in `fixed_decimal::SignDisplay`. -/
inductive SignDisplay where
  | auto
  | always
  | never
  | exceptZero
  | negative
deriving DecidableEq

/-- Modelled from the spec: `apply_sign_display` rewrites only the stored
sign attribute (`Auto`: minus only if negative; `Always`: explicit sign;
`Never`: none; `ExceptZero`: sign unless the value is zero; `Negative`:
minus only if negative and nonzero).  The magnitude is untouched. -/
def applySignDisplay (d : FixedDec) (sd : SignDisplay) : FixedDec :=
  ⟨match sd with
    | SignDisplay.auto => if d.sign = Sign.negative then Sign.negative else Sign.nosign
    | SignDisplay.always => if d.sign = Sign.negative then Sign.negative else Sign.positive
    | SignDisplay.never => Sign.nosign
    | SignDisplay.exceptZero =>
        if d.num = 0 then Sign.nosign
        else if d.sign = Sign.negative then Sign.negative else Sign.positive
    | SignDisplay.negative =>
        if d.sign = Sign.negative ∧ d.num ≠ 0 then Sign.negative else Sign.nosign,
   d.num, d.exp, d.upper, d.lower⟩

/-- Number of displayed integer digit positions. -/
def intDigitSlots (d : FixedDec) : Int := d.upper + 1

/-- Number of displayed fraction digit positions. -/
def fracDigitSlots (d : FixedDec) : Int := -d.lower

/-- Grouping strategy, as in `icu::decimal::options::GroupingStrategy`. -/
inductive GroupingStrategy where
  | auto
  | always
  | min2
  | never
deriving DecidableEq

/-- Model of `FormatterConfig` from `number.rs` (digit counts are `u16` in
the source; validated configurations keep them within the `i16` range). -/
structure FormatterConfig where
  minimumIntegerDigits : Nat
  minimumFractionDigits : Nat
  maximumFractionDigits : Option Nat
  groupingStrategy : GroupingStrategy
  signDisplay : SignDisplay
deriving DecidableEq

/-- Model of `FormatterConfig::default()` from `number.rs`. -/
def defaultConfig : FormatterConfig :=
  ⟨1, 0, some 3, GroupingStrategy.auto, SignDisplay.auto⟩

/-- Model of `apply_config` from `number.rs` (lines 344-364): round at
`-maximum_fraction_digits` when present, left-pad integer digits, right-pad
fraction digits, then apply the sign display.  Each `i16::try_from` on a
`u16` digit count succeeds exactly when the count is at most 32767; on
failure the source's `if let Ok` silently skips the step. -/
def applyConfig (d : FixedDec) (c : FormatterConfig) : FixedDec :=
  let d1 :=
    match c.maximumFractionDigits with
    | some m => if (m : Int) ≤ 32767 then roundHalfEven d (-(m : Int)) else d
    | none => d
  let d2 :=
    if 0 < c.minimumIntegerDigits then
      if (c.minimumIntegerDigits : Int) ≤ 32767 then
        padStart d1 (c.minimumIntegerDigits : Int)
      else d1
    else d1
  let d3 :=
    if 0 < c.minimumFractionDigits then
      if (c.minimumFractionDigits : Int) ≤ 32767 then
        padEnd d2 (-(c.minimumFractionDigits : Int))
      else d2
    else d2
  applySignDisplay d3 c.signDisplay

/-- Step 1 of the Configuration Applier: round at `-maximum_fraction_digits`
when a maximum is set. -/
def roundStep (d : FixedDec) (c : FormatterConfig) : FixedDec :=
  match c.maximumFractionDigits with
  | some m => roundHalfEven d (-(m : Int))
  | none => d

/-- Step 2 of the Configuration Applier: left-pad the integer part. -/
def padStartStep (d : FixedDec) (c : FormatterConfig) : FixedDec :=
  padStart d (c.minimumIntegerDigits : Int)

/-- Step 3 of the Configuration Applier: right-pad the fraction part. -/
def padEndStep (d : FixedDec) (c : FormatterConfig) : FixedDec :=
  padEnd d (-(c.minimumFractionDigits : Int))

/-- Step 4 of the Configuration Applier: apply the sign display policy. -/
def signStep (d : FixedDec) (c : FormatterConfig) : FixedDec :=
  applySignDisplay d c.signDisplay

/-- A Rendering Configuration satisfying the data-model invariants of the
spec: at least one integer digit, digit bounds within the signed 16-bit
range, and a maximum fraction count (when present) at least the minimum. -/
def validConfig (c : FormatterConfig) : Prop :=
  1 ≤ c.minimumIntegerDigits ∧ c.minimumIntegerDigits ≤ 32767 ∧
  c.minimumFractionDigits ≤ 32767 ∧
  c.maximumFractionDigits.all
    (fun m => decide (c.minimumFractionDigits ≤ m ∧ m ≤ 32767)) = true

/-- Model of an Erlang term as seen through the `rustler` decodes the
repository performs: an atom (by name), an unbounded integer, a 2-tuple of
integers, a string/binary, or any other term. -/
inductive Value where
  | vAtom (a : String)
  | vInt (i : Int)
  | vTuple (a b : Int)
  | vStr (s : String)
  | vOther
deriving DecidableEq

/-- Model of an options argument: the source first checks for a map, then
accepts the atom `nil`, and fails on anything else.  A map is its key/value
pairs in iteration order. -/
inductive OptionsTerm where
  | atomT (a : String)
  | mapT (es : List (Value × Value))
  | otherT
deriving DecidableEq

/-- Error kinds surfaced to the host (the atoms of the error tuples). -/
inductive FmtError where
  | invalidNumber
  | invalidOptions
  | invalidDatetime
  | invalidItems
  | invalidLocale
  | invalidFormatter
deriving DecidableEq

/-- One iteration of the `decode_formatter_config` loop from `number.rs`
(lines 213-264).  A non-atom key fails the `Atom` decode; an `i64` value
decode is modelled as succeeding on every integer, which is extensionally
equal here because every branch bounds the value by 32767 < 2^63 anyway. -/
def numberDecodeEntry (c : FormatterConfig) : Value × Value → Except Unit FormatterConfig
  | (Value.vAtom k, v) =>
    if k = "minimum_integer_digits" then
      match v with
      | Value.vInt i =>
          if i < 1 ∨ 32767 < i then Except.error ()
          else Except.ok { c with minimumIntegerDigits := i.toNat }
      | _ => Except.error ()
    else if k = "minimum_fraction_digits" then
      match v with
      | Value.vInt i =>
          if i < 0 ∨ 32767 < i then Except.error ()
          else Except.ok { c with minimumFractionDigits := i.toNat }
      | _ => Except.error ()
    else if k = "maximum_fraction_digits" then
      match v with
      | Value.vAtom a =>
          if a = "nil" then Except.ok { c with maximumFractionDigits := none }
          else Except.error ()
      | Value.vInt i =>
          if i < 0 ∨ 32767 < i then Except.error ()
          else Except.ok { c with maximumFractionDigits := some i.toNat }
      | _ => Except.error ()
    else if k = "grouping" then
      match v with
      | Value.vAtom a =>
          if a = "auto" then Except.ok { c with groupingStrategy := GroupingStrategy.auto }
          else if a = "always" then Except.ok { c with groupingStrategy := GroupingStrategy.always }
          else if a = "min2" then Except.ok { c with groupingStrategy := GroupingStrategy.min2 }
          else if a = "never" then Except.ok { c with groupingStrategy := GroupingStrategy.never }
          else Except.error ()
      | _ => Except.error ()
    else if k = "sign_display" then
      match v with
      | Value.vAtom a =>
          if a = "auto" then Except.ok { c with signDisplay := SignDisplay.auto }
          else if a = "always" then Except.ok { c with signDisplay := SignDisplay.always }
          else if a = "never" then Except.ok { c with signDisplay := SignDisplay.never }
          else if a = "except_zero" then Except.ok { c with signDisplay := SignDisplay.exceptZero }
          else if a = "negative" then Except.ok { c with signDisplay := SignDisplay.negative }
          else Except.error ()
      | _ => Except.error ()
    else Except.error ()
  | _ => Except.error ()

/-- The `while let` loop of `decode_formatter_config` from `number.rs`. -/
def numberDecodeLoop (c : FormatterConfig) : List (Value × Value) → Except Unit FormatterConfig
  | [] => Except.ok c
  | e :: rest =>
    match numberDecodeEntry c e with
    | Except.error u => Except.error u
    | Except.ok c2 => numberDecodeLoop c2 rest

/-- Model of `decode_formatter_config` from `number.rs` (lines 200-273). -/
def numberDecodeConfig : OptionsTerm → Except Unit FormatterConfig
  | OptionsTerm.mapT es =>
    match numberDecodeLoop defaultConfig es with
    | Except.error u => Except.error u
    | Except.ok c =>
      match c.maximumFractionDigits with
      | some m =>
          if m < c.minimumFractionDigits then Except.error () else Except.ok c
      | none => Except.ok c
  | OptionsTerm.atomT a => if a = "nil" then Except.ok defaultConfig else Except.error ()
  | OptionsTerm.otherT => Except.error ()

/-- Model of the options handling of `number_formatter_new` (lines 120-123):
a decode failure is surfaced to the caller as `invalid_options` (locale
resolution and the engine construction are outside this model). -/
def numberFormatterNewConfig (t : OptionsTerm) : Except FmtError FormatterConfig :=
  match numberDecodeConfig t with
  | Except.error _ => Except.error FmtError.invalidOptions
  | Except.ok c => Except.ok c

/-- List type, as in `list.rs`. -/
inductive ListType where
  | and
  | or
  | unit
deriving DecidableEq

/-- List length, as in `icu::list::options::ListLength`. -/
inductive ListLength where
  | wide
  | short
  | narrow
deriving DecidableEq

/-- Model of `FormatterConfig` from `list.rs`. -/
structure ListConfig where
  listType : ListType
  length : ListLength
deriving DecidableEq

/-- Model of `FormatterConfig::default()` from `list.rs`. -/
def defaultListConfig : ListConfig := ⟨ListType.and, ListLength.wide⟩

/-- One iteration of the `decode_formatter_config` loop from `list.rs`
(lines 224-264): `"locale"` is skipped with any value; an unrecognized key
is skipped when its value is the atom `nil` and rejected otherwise. -/
def listDecodeEntry (c : ListConfig) : Value × Value → Except Unit ListConfig
  | (Value.vAtom k, v) =>
    if k = "type" then
      match v with
      | Value.vAtom a =>
          if a = "and" then Except.ok { c with listType := ListType.and }
          else if a = "or" then Except.ok { c with listType := ListType.or }
          else if a = "unit" then Except.ok { c with listType := ListType.unit }
          else Except.error ()
      | _ => Except.error ()
    else if k = "width" then
      match v with
      | Value.vAtom a =>
          if a = "wide" then Except.ok { c with length := ListLength.wide }
          else if a = "short" then Except.ok { c with length := ListLength.short }
          else if a = "narrow" then Except.ok { c with length := ListLength.narrow }
          else Except.error ()
      | _ => Except.error ()
    else if k = "locale" then Except.ok c
    else
      match v with
      | Value.vAtom a => if a = "nil" then Except.ok c else Except.error ()
      | _ => Except.error ()
  | _ => Except.error ()

/-- The `while let` loop of `decode_formatter_config` from `list.rs`. -/
def listDecodeLoop (c : ListConfig) : List (Value × Value) → Except Unit ListConfig
  | [] => Except.ok c
  | e :: rest =>
    match listDecodeEntry c e with
    | Except.error u => Except.error u
    | Except.ok c2 => listDecodeLoop c2 rest

/-- Model of `decode_formatter_config` from `list.rs` (lines 211-267). -/
def listDecodeConfig : OptionsTerm → Except Unit ListConfig
  | OptionsTerm.mapT es => listDecodeLoop defaultListConfig es
  | OptionsTerm.atomT a => if a = "nil" then Except.ok defaultListConfig else Except.error ()
  | OptionsTerm.otherT => Except.error ()

/-- The field-collection loop of `try_decode_decimal_struct` from
`number.rs` (lines 303-318): keys must be atoms (`decode().ok()?`); the
`sign` and `exp` values are decoded as `i64` on the spot (failure aborts
with `None`); the `coef` term is stored for later; unknown keys are
ignored. -/
def collectDecFields (acc : Option Int × Option Value × Option Int) :
    List (Value × Value) → Option (Option Int × Option Value × Option Int)
  | [] => some acc
  | (Value.vAtom k, v) :: rest =>
    if k = "sign" then
      match v with
      | Value.vInt i =>
          if i < -(2 ^ 63) ∨ 2 ^ 63 - 1 < i then none
          else collectDecFields (some i, acc.2.1, acc.2.2) rest
      | _ => none
    else if k = "coef" then collectDecFields (acc.1, some v, acc.2.2) rest
    else if k = "exp" then
      match v with
      | Value.vInt i =>
          if i < -(2 ^ 63) ∨ 2 ^ 63 - 1 < i then none
          else collectDecFields (acc.1, acc.2.1, some i) rest
      | _ => none
    else collectDecFields acc rest
  | _ :: _ => none

/-- Decoding of the stored `coef` term (lines 327-333): an integer decodes
through the `i64` fast path or, when it exceeds `i64`, through the
`BigInt`-to-string path; both produce the decimal of that integer (see
`fromInt`).  Every non-integer term (atoms such as `:NaN` or `:inf`,
floats, ...) fails both decodes and yields `None`. -/
def decodeCoefTerm : Value → Option FixedDec
  | Value.vInt i => some (fromInt i)
  | _ => none

/-- Model of `try_decode_decimal_struct` from `number.rs` (lines 302-342):
all three fields are required, the exponent must fit `i16`, the coefficient
is decoded, the exponent is applied by `multiply_pow10`, and a negative
sign forces the decimal's sign negative. -/
def tryDecodeDecimalStruct (es : List (Value × Value)) : Option FixedDec :=
  match collectDecFields (none, none, none) es with
  | none => none
  | some (signOpt, coefOpt, expOpt) =>
    match signOpt, coefOpt, expOpt with
    | some sg, some ct, some ex =>
      if ex < -(2 ^ 15) ∨ 2 ^ 15 - 1 < ex then none
      else
        match decodeCoefTerm ct with
        | none => none
        | some d0 =>
          let d1 := multiplyPow10 d0 ex
          some (if sg < 0 then setSignNegative d1 else d1)
    | _, _, _ => none

/-- Decoded date/time fields accumulated by the `decode_temporal` loop from
`datetime.rs` (lines 220-226).  The time-zone assignments on the unchecked
input carry no information the claims consult and are not tracked. -/
structure TemporalFields where
  year : Option Int
  month : Option Int
  day : Option Int
  hour : Option Int
  minute : Option Int
  second : Option Int
  microsecond : Option (Int × Int)
deriving DecidableEq

/-- The empty field record at loop entry. -/
def emptyTemporalFields : TemporalFields :=
  ⟨none, none, none, none, none, none, none⟩

/-- Modelled from the spec: proleptic-Gregorian leap year rule used by
`Date::try_new_iso` (library code outside the repository). -/
def isLeapYear (y : Int) : Bool :=
  y % 4 = 0 ∧ (y % 100 ≠ 0 ∨ y % 400 = 0)

/-- Modelled from the spec: days in a month of the ISO calendar. -/
def daysInMonth (y m : Int) : Int :=
  if m = 2 then (if isLeapYear y then 29 else 28)
  else if m = 4 ∨ m = 6 ∨ m = 9 ∨ m = 11 then 30
  else 31

/-- Modelled from the spec: `Date::try_new_iso(year, month, day)` succeeds
exactly for an in-range month and a day of that month. -/
def isoDateOk (y m d : Int) : Bool :=
  1 ≤ m ∧ m ≤ 12 ∧ 1 ≤ d ∧ d ≤ daysInMonth y m

/-- Modelled from the spec: `Time::try_new(hour, minute, second, nanosecond)`
validates its field ranges (library code outside the repository). -/
def timeOk (h mi se nano : Int) : Bool :=
  0 ≤ h ∧ h < 24 ∧ 0 ≤ mi ∧ mi < 60 ∧ 0 ≤ se ∧ se < 61 ∧
  0 ≤ nano ∧ nano < 1000000000

/-- One iteration of the `decode_temporal` loop from `datetime.rs`
(lines 228-282): a non-atom key fails the `Atom` decode; each recognized
key decodes and range-checks its value; `time_zone` requires a string and
`utc_offset` an `i32` (their effect on the unchecked input is not
tracked); `calendar_identifier` and unrecognized atom keys are ignored. -/
def temporalDecodeEntry (s : TemporalFields) : Value × Value → Except Unit TemporalFields
  | (Value.vAtom k, v) =>
    if k = "year" then
      match v with
      | Value.vInt i =>
          if i < -(2 ^ 31) ∨ 2 ^ 31 - 1 < i then Except.error ()
          else Except.ok { s with year := some i }
      | _ => Except.error ()
    else if k = "month" then
      match v with
      | Value.vInt i =>
          if i < 1 ∨ 12 < i then Except.error ()
          else Except.ok { s with month := some i }
      | _ => Except.error ()
    else if k = "day" then
      match v with
      | Value.vInt i =>
          if i < 1 ∨ 31 < i then Except.error ()
          else Except.ok { s with day := some i }
      | _ => Except.error ()
    else if k = "hour" then
      match v with
      | Value.vInt i =>
          if i < 0 ∨ 23 < i then Except.error ()
          else Except.ok { s with hour := some i }
      | _ => Except.error ()
    else if k = "minute" then
      match v with
      | Value.vInt i =>
          if i < 0 ∨ 59 < i then Except.error ()
          else Except.ok { s with minute := some i }
      | _ => Except.error ()
    else if k = "second" then
      match v with
      | Value.vInt i =>
          if i < 0 ∨ 59 < i then Except.error ()
          else Except.ok { s with second := some i }
      | _ => Except.error ()
    else if k = "microsecond" then
      match v with
      | Value.vTuple ms us =>
          if ms < 0 ∨ 2 ^ 32 - 1 < ms ∨ us < 0 ∨ 2 ^ 32 - 1 < us then Except.error ()
          else if 999999 < ms then Except.error ()
          else if 6 < us then Except.error ()
          else Except.ok { s with microsecond := some (ms, us) }
      | _ => Except.error ()
    else if k = "time_zone" then
      match v with
      | Value.vStr _ => Except.ok s
      | _ => Except.error ()
    else if k = "utc_offset" then
      match v with
      | Value.vInt i =>
          if i < -(2 ^ 31) ∨ 2 ^ 31 - 1 < i then Except.error ()
          else if i < -64800 ∨ 64800 < i then Except.error ()
          else Except.ok s
      | _ => Except.error ()
    else Except.ok s
  | _ => Except.error ()

/-- The `while let` loop of `decode_temporal` from `datetime.rs`. -/
def temporalDecodeLoop (s : TemporalFields) : List (Value × Value) → Except Unit TemporalFields
  | [] => Except.ok s
  | e :: rest =>
    match temporalDecodeEntry s e with
    | Except.error u => Except.error u
    | Except.ok s2 => temporalDecodeLoop s2 rest

/-- The date block of `decode_temporal` (lines 284-288): if any of
year/month/day was given, all three are required and must form a valid ISO
date. -/
def dateCheckOk (s : TemporalFields) : Bool :=
  if s.year.isSome || s.month.isSome || s.day.isSome then
    match s.year, s.month, s.day with
    | some y, some m, some d => isoDateOk y m d
    | _, _, _ => false
  else true

/-- The time block of `decode_temporal` (lines 290-300): if any of
hour/minute/second/microsecond was given, the microsecond pair and all of
hour/minute/second are required and must form a valid time (the stored
value is microseconds, passed to the engine as microseconds times 1000
nanoseconds). -/
def timeCheckOk (s : TemporalFields) : Bool :=
  if s.hour.isSome || s.minute.isSome || s.second.isSome || s.microsecond.isSome then
    match s.microsecond, s.hour, s.minute, s.second with
    | some usp, some h, some mi, some se => timeOk h mi se (usp.1 * 1000)
    | _, _, _, _ => false
  else true

/-- Model of `decode_temporal` from `datetime.rs` (lines 209-303): a
non-map input is rejected; otherwise the field loop runs, then the date
and time blocks validate all-or-nothing presence. -/
def decodeTemporal : OptionsTerm → Except Unit TemporalFields
  | OptionsTerm.mapT es =>
    match temporalDecodeLoop emptyTemporalFields es with
    | Except.error u => Except.error u
    | Except.ok s =>
      if dateCheckOk s && timeCheckOk s then Except.ok s else Except.error ()
  | _ => Except.error ()

/-- Model of the input handling of `temporal_format` (lines 128-131): a
decode failure is surfaced to the caller as `invalid_datetime` (the actual
rendering by the external engine is outside this model). -/
def temporalFormatInput (t : OptionsTerm) : Except FmtError TemporalFields :=
  match decodeTemporal t with
  | Except.error _ => Except.error FmtError.invalidDatetime
  | Except.ok s => Except.ok s

/-- Internal span category (`writeable::Part`): the datetime field parts,
the decimal parts, the list parts, and anything else. -/
inductive WTag where
  | era
  | year
  | relatedYear
  | yearName
  | month
  | day
  | weekday
  | dayPeriod
  | hour
  | minute
  | second
  | timeZoneName
  | dInteger
  | dDecimal
  | dFraction
  | dGroup
  | dPlusSign
  | dMinusSign
  | element
  | literalTag
  | unknownTag
deriving DecidableEq

/-- Model of `CollectedPart`: a half-open range `[start, stop)` of the
output buffer plus the category tag of the write scope. -/
structure Span where
  start : Nat
  stop : Nat
  tag : WTag
deriving DecidableEq

/-- Model of `PartsCollector`: the growing output buffer and the recorded
spans in push order. -/
structure Collector where
  output : List Char
  parts : List Span
deriving DecidableEq

/-- A write operation against the collector: a raw text write
(`write_str` / `write_char`) or a tagged scope (`with_part`) containing the
writes its closure performs. -/
inductive WOp where
  | str (s : List Char)
  | part (tag : WTag) (ops : List WOp)

mutual

/-- Model of one collector operation.  A `.part` scope records the output
length before and after running its body and pushes one span exactly when
the body wrote at least one unit (`PartsCollector::with_part`, identical in
`number.rs` lines 90-103, `list.rs` lines 86-99 and `datetime.rs` lines
69-82). -/
def runOp (c : Collector) : WOp → Collector
  | WOp.str s => ⟨c.output ++ s, c.parts⟩
  | WOp.part t ops =>
    let start := c.output.length
    let c2 := runOps c ops
    let stop := c2.output.length
    if start < stop then ⟨c2.output, c2.parts ++ [⟨start, stop, t⟩]⟩ else c2

/-- Run a sequence of collector operations left to right. -/
def runOps (c : Collector) : List WOp → Collector
  | [] => c
  | op :: rest => runOps (runOp c op) rest

end

/-- The empty collector (`PartsCollector::new`). -/
def emptyCollector : Collector := ⟨[], []⟩

/-- Model of `part_atom` from `datetime.rs` (lines 460-494): the datetime
field categories and the decimal integer/decimal/fraction categories map to
caller-facing atoms; everything else is dropped. -/
def dtPartAtom : WTag → Option String
  | WTag.era => some "era"
  | WTag.year => some "year"
  | WTag.relatedYear => some "related_year"
  | WTag.yearName => some "year_name"
  | WTag.month => some "month"
  | WTag.day => some "day"
  | WTag.weekday => some "weekday"
  | WTag.dayPeriod => some "day_period"
  | WTag.hour => some "hour"
  | WTag.minute => some "minute"
  | WTag.second => some "second"
  | WTag.timeZoneName => some "time_zone_name"
  | WTag.dInteger => some "integer"
  | WTag.dDecimal => some "decimal"
  | WTag.dFraction => some "fraction"
  | _ => none

/-- Model of `output.get(a..b)` on the output buffer: `Some` slice exactly
when the range is well formed and within bounds (all recorded offsets lie
on chunk boundaries, so the UTF-8 char-boundary condition always holds). -/
def sliceOpt (o : List Char) (a b : Nat) : Option (List Char) :=
  if a ≤ b ∧ b ≤ o.length then some ((o.drop a).take (b - a)) else none

/-- The loop of `temporal_format_to_parts` from `datetime.rs` (lines
168-204), including its trailing-gap synthesis: before each collected span
a nonempty uncovered range `[last, start)` is emitted as a `"literal"`
part, the span itself is emitted when its tag maps to a known atom, and
`last` advances to the span's stop offset; a nonempty tail after the final
span is emitted as a `"literal"` part. -/
def dtExtract (o : List Char) : List Span → Nat → List (String × List Char)
  | [], last =>
    if last < o.length then
      match sliceOpt o last o.length with
      | some sl => if sl.isEmpty then [] else [("literal", sl)]
      | none => []
    else []
  | sp :: rest, last =>
    let gap :=
      if last < sp.start then
        match sliceOpt o last sp.start with
        | some sl => if sl.isEmpty then [] else [("literal", sl)]
        | none => []
      else []
    let cur :=
      match dtPartAtom sp.tag with
      | some a =>
        match sliceOpt o sp.start sp.stop with
        | some sl => [(a, sl)]
        | none => []
      | none => []
    gap ++ cur ++ dtExtract o rest sp.stop

/-- Model of `temporal_format_to_parts` (lines 160-206) after a successful
decode: run the engine's write trace through the collector, then extract
parts with literal-gap synthesis. -/
def temporalFormatToParts (trace : List WOp) : List (String × List Char) :=
  let c := runOps emptyCollector trace
  dtExtract c.output c.parts 0

/-- All-or-nothing flatness hypothesis on a collected span list: starting
from offset `last`, the spans are nonempty, pairwise disjoint, in
increasing order, within bounds, and all carry known categories. -/
def flatKnown (o : List Char) : List Span → Nat → Bool
  | [], last => decide (last ≤ o.length)
  | sp :: rest, last =>
    decide (last ≤ sp.start) && decide (sp.start < sp.stop) &&
      (dtPartAtom sp.tag).isSome && flatKnown o rest sp.stop

/-- Concatenation of the text of a parts sequence, in order. -/
def partsText (ps : List (String × List Char)) : List Char :=
  (ps.map Prod.snd).flatten

/-- Two spans overlap when their half-open ranges intersect. -/
def spansOverlap (a b : Span) : Prop :=
  a.start < b.stop ∧ b.start < a.stop

/-- An association list of map entries contains an atom key. -/
def hasKey (es : List (Value × Value)) (k : String) : Bool :=
  es.any (fun e => e.1 = Value.vAtom k)

/-! ## Helper lemmas -/

theorem halfEvenDiv_nearest (n m : Nat) (hm : 0 < m) (hdvd : 2 ∣ m) :
    2 * Int.natAbs ((halfEvenDiv n m : Int) * m - n) ≤ m ∧
    (2 * Int.natAbs ((halfEvenDiv n m : Int) * m - n) = m → halfEvenDiv n m % 2 = 0) := by
  have hmod : m * (n / m) + n % m = n := Nat.div_add_mod n m
  have hmodz : (m : Int) * ((n / m : Nat) : Int) + ((n % m : Nat) : Int) = (n : Int) := by
    exact_mod_cast hmod
  have hr : n % m < m := Nat.mod_lt n hm
  unfold halfEvenDiv
  split_ifs with h1 h2 h3
  · have key : ((n / m + 1 : Nat) : Int) * m - n = (m : Int) - ((n % m : Nat) : Int) := by
      rw [Nat.cast_add, Nat.cast_one]
      linear_combination hmodz
    rw [key]
    omega
  · have key : ((n / m : Nat) : Int) * m - n = -((n % m : Nat) : Int) := by
      linear_combination hmodz
    rw [key]
    omega
  · have key : ((n / m : Nat) : Int) * m - n = -((n % m : Nat) : Int) := by
      linear_combination hmodz
    rw [key]
    omega
  · have key : ((n / m + 1 : Nat) : Int) * m - n = (m : Int) - ((n % m : Nat) : Int) := by
      rw [Nat.cast_add, Nat.cast_one]
      linear_combination hmodz
    rw [key]
    omega

theorem halfEvenScale_nearest (n k : Nat) (hk : 0 < k) :
    2 * Int.natAbs ((halfEvenScale n k : Int) * 10 ^ k - n) ≤ 10 ^ k ∧
    (2 * Int.natAbs ((halfEvenScale n k : Int) * 10 ^ k - n) = 10 ^ k →
      halfEvenScale n k % 2 = 0) := by
  have h := halfEvenDiv_nearest n (10 ^ k) (Nat.pos_pow_of_pos k (by norm_num))
    (dvd_pow (by norm_num) hk.ne')
  have hc : (((10 : Nat) ^ k : Nat) : Int) = (10 : Int) ^ k := by push_cast; ring
  unfold halfEvenScale
  rw [← hc]
  exact h

theorem val_padStart (x : FixedDec) (p : Int) : val (padStart x p) = val x := by
  unfold padStart
  split_ifs <;> rfl

theorem padStart_slots (x : FixedDec) (p : Int) (hp : 0 < p) :
    p ≤ intDigitSlots (padStart x p) := by
  unfold padStart intDigitSlots
  split_ifs with h1 h2
  · omega
  · omega
  · simp only []
    omega

theorem val_padEnd (x : FixedDec) (q : Int) : val (padEnd x q) = val x := by
  unfold padEnd
  split_ifs <;> rfl

theorem padEnd_slots (x : FixedDec) (q : Int) (hq : q < 0) :
    -q ≤ fracDigitSlots (padEnd x q) := by
  unfold padEnd fracDigitSlots
  split_ifs with h1 h2
  · omega
  · omega
  · simp only []
    omega

theorem applySignDisplay_magnitude (x : FixedDec) (sd : SignDisplay) :
    (applySignDisplay x sd).num = x.num ∧ (applySignDisplay x sd).exp = x.exp ∧
    (applySignDisplay x sd).upper = x.upper ∧ (applySignDisplay x sd).lower = x.lower := by
  refine ⟨rfl, rfl, rfl, rfl⟩

theorem validConfig_bounds (c : FormatterConfig) (hv : validConfig c) :
    1 ≤ c.minimumIntegerDigits ∧ (c.minimumIntegerDigits : Int) ≤ 32767 ∧
    (c.minimumFractionDigits : Int) ≤ 32767 ∧
    ∀ m, c.maximumFractionDigits = some m →
      c.minimumFractionDigits ≤ m ∧ (m : Int) ≤ 32767 := by
  obtain ⟨h1, h2, h3, h4⟩ := hv
  refine ⟨h1, by exact_mod_cast h2, by exact_mod_cast h3, ?_⟩
  intro m hm
  rw [hm] at h4
  simp only [Option.all_some, decide_eq_true_eq] at h4
  exact ⟨h4.1, by exact_mod_cast h4.2⟩

theorem applyConfig_eq_steps (d : FixedDec) (c : FormatterConfig) (hv : validConfig c) :
    applyConfig d c = signStep (padEndStep (padStartStep (roundStep d c) c) c) c := by
  obtain ⟨h1, h2, h3, h4⟩ := validConfig_bounds c hv
  unfold applyConfig signStep padEndStep padStartStep roundStep
  have h1p : 0 < c.minimumIntegerDigits := h1
  cases hm : c.maximumFractionDigits with
  | none =>
      simp only []
      rw [if_pos h1p, if_pos h2]
      by_cases hf : 0 < c.minimumFractionDigits
      · rw [if_pos hf, if_pos h3]
      · rw [if_neg hf]
        have h0 : c.minimumFractionDigits = 0 := by omega
        rw [h0]
        unfold padEnd
        rw [if_pos (by norm_num)]
  | some m =>
      obtain ⟨hmin, hm32⟩ := h4 m hm
      simp only []
      rw [if_pos hm32, if_pos h1p, if_pos h2]
      by_cases hf : 0 < c.minimumFractionDigits
      · rw [if_pos hf, if_pos h3]
      · rw [if_neg hf]
        have h0 : c.minimumFractionDigits = 0 := by omega
        rw [h0]
        unfold padEnd
        rw [if_pos (by norm_num)]

/-! ## Claim C1 -/

/-- C1: for every Decimal Value and every valid Rendering Configuration,
`apply_config` performs exactly the four steps in this fixed order:
(1) when `maximum_fraction_digits = Some m`, round the magnitude at digit
position `-m` using round half to even; (2) left-pad the integer part to at
least `minimum_integer_digits` digits without changing the value; (3)
right-pad the fraction part to at least `minimum_fraction_digits` digits
without changing the value; (4) apply the sign-display policy as a
rendering attribute without altering the magnitude. -/
theorem C1_configuration_applier_order (d : FixedDec) (c : FormatterConfig)
    (hv : validConfig c) :
    applyConfig d c = signStep (padEndStep (padStartStep (roundStep d c) c) c) c ∧
    (∀ m, c.maximumFractionDigits = some m → roundStep d c = roundHalfEven d (-(m : Int))) ∧
    (∀ x (p : Int), val (padStart x p) = val x ∧ (0 < p → p ≤ intDigitSlots (padStart x p))) ∧
    (∀ x (q : Int), val (padEnd x q) = val x ∧ (q < 0 → -q ≤ fracDigitSlots (padEnd x q))) ∧
    (∀ x sd, (applySignDisplay x sd).num = x.num ∧ (applySignDisplay x sd).exp = x.exp ∧
      (applySignDisplay x sd).upper = x.upper ∧ (applySignDisplay x sd).lower = x.lower) ∧
    (∀ (n k : Nat), 0 < k →
      2 * Int.natAbs ((halfEvenScale n k : Int) * 10 ^ k - n) ≤ 10 ^ k ∧
      (2 * Int.natAbs ((halfEvenScale n k : Int) * 10 ^ k - n) = 10 ^ k →
        halfEvenScale n k % 2 = 0)) := by
  refine ⟨applyConfig_eq_steps d c hv, ?_, ?_, ?_, ?_, ?_⟩
  · intro m hm
    unfold roundStep
    rw [hm]
  · intro x p
    exact ⟨val_padStart x p, padStart_slots x p⟩
  · intro x q
    exact ⟨val_padEnd x q, padEnd_slots x q⟩
  · intro x sd
    exact applySignDisplay_magnitude x sd
  · intro n k hk
    exact halfEvenScale_nearest n k hk

/-- Witness for C1 at the decimal 1.2345 and the default configuration. -/
theorem C1_configuration_applier_order_witness :
    applyConfig ⟨Sign.nosign, 12345, -4, 0, -4⟩ defaultConfig =
      signStep
        (padEndStep
          (padStartStep (roundStep ⟨Sign.nosign, 12345, -4, 0, -4⟩ defaultConfig)
            defaultConfig)
          defaultConfig)
        defaultConfig :=
  (C1_configuration_applier_order ⟨Sign.nosign, 12345, -4, 0, -4⟩ defaultConfig
    (by unfold validConfig; decide)).1

/-! ## Claim C6 -/

/-- C6: on every decimal and every configuration satisfying the
Rendering Configuration invariants, the Configuration Applier is total:
every digit-position computation fits the signed 16-bit range, so no
failure can occur (and a fortiori the only conceivable failure is a
digit-position overflow, which the formatter would surface as
`invalid_number`), and the configuration is never partially applied: all
four steps complete unconditionally. -/
theorem C6_configuration_applier_total (d : FixedDec) (c : FormatterConfig)
    (hv : validConfig c) :
    (∀ m, c.maximumFractionDigits = some m → (m : Int) ≤ 32767) ∧
    (c.minimumIntegerDigits : Int) ≤ 32767 ∧
    (c.minimumFractionDigits : Int) ≤ 32767 ∧
    applyConfig d c =
      applySignDisplay
        (padEnd (padStart (roundStep d c) (c.minimumIntegerDigits : Int))
          (-(c.minimumFractionDigits : Int)))
        c.signDisplay := by
  obtain ⟨h1, h2, h3, h4⟩ := validConfig_bounds c hv
  refine ⟨fun m hm => (h4 m hm).2, h2, h3, ?_⟩
  rw [applyConfig_eq_steps d c hv]
  rfl

/-- Witness for C6 at the decimal -0.5 and the default configuration. -/
theorem C6_configuration_applier_total_witness :
    applyConfig ⟨Sign.negative, 5, -1, 0, -1⟩ defaultConfig =
      applySignDisplay
        (padEnd
          (padStart (roundStep ⟨Sign.negative, 5, -1, 0, -1⟩ defaultConfig)
            ((defaultConfig.minimumIntegerDigits : Nat) : Int))
          (-((defaultConfig.minimumFractionDigits : Nat) : Int)))
        defaultConfig.signDisplay :=
  (C6_configuration_applier_total ⟨Sign.negative, 5, -1, 0, -1⟩ defaultConfig
    (by unfold validConfig; decide)).2.2.2

theorem val_fromInt (i : Int) : val (fromInt i) = (i : ℚ) := by
  unfold val fromInt
  split_ifs with h
  · simp only [signFactor, zpow_zero, mul_one]
    rw [Int.cast_natAbs, abs_of_neg h]
    push_cast
    ring
  · simp only [signFactor, zpow_zero, mul_one, one_mul]
    rw [Int.cast_natAbs, abs_of_nonneg (not_lt.mp h)]

theorem val_multiplyPow10 (d : FixedDec) (delta : Int) :
    val (multiplyPow10 d delta) = val d * (10 : ℚ) ^ delta := by
  unfold val multiplyPow10
  simp only []
  rw [zpow_add₀ (by norm_num : (10 : ℚ) ≠ 0)]
  ring

theorem val_setSignNegative (d : FixedDec) :
    val (setSignNegative d) = -((d.num : ℚ) * (10 : ℚ) ^ d.exp) := by
  unfold val setSignNegative signFactor
  ring

theorem collectDec_no_sign (es : List (Value × Value)) :
    ∀ acc, hasKey es "sign" = false →
      collectDecFields acc es = none ∨
        ∃ r, collectDecFields acc es = some r ∧ r.1 = acc.1 := by
  induction es with
  | nil =>
      intro acc _
      exact Or.inr ⟨acc, rfl, rfl⟩
  | cons p rest ih =>
      intro acc h
      simp only [hasKey, List.any_cons, Bool.or_eq_false_iff, decide_eq_false_iff_not] at h
      obtain ⟨hk, hrest⟩ := h
      have hrest2 : hasKey rest "sign" = false := by
        simp only [hasKey]
        exact hrest
      obtain ⟨pa, pv⟩ := p
      cases pa with
      | vAtom k =>
          have hks : ¬k = "sign" := by
            intro hcontra
            exact hk (by rw [hcontra])
          unfold collectDecFields
          rw [if_neg hks]
          by_cases hkc : k = "coef"
          · rw [if_pos hkc]
            exact ih (acc.1, some pv, acc.2.2) hrest2
          · rw [if_neg hkc]
            by_cases hke : k = "exp"
            · rw [if_pos hke]
              cases pv with
              | vInt i =>
                  dsimp only
                  by_cases hb : i < -(2 ^ 63) ∨ 2 ^ 63 - 1 < i
                  · rw [if_pos hb]
                    exact Or.inl rfl
                  · rw [if_neg hb]
                    exact ih (acc.1, acc.2.1, some i) hrest2
              | vAtom a => exact Or.inl rfl
              | vTuple a b => exact Or.inl rfl
              | vStr s2 => exact Or.inl rfl
              | vOther => exact Or.inl rfl
            · rw [if_neg hke]
              exact ih acc hrest2
      | vInt i => exact Or.inl rfl
      | vTuple a b => exact Or.inl rfl
      | vStr s2 => exact Or.inl rfl
      | vOther => exact Or.inl rfl

theorem collectDec_no_coef (es : List (Value × Value)) :
    ∀ acc, hasKey es "coef" = false →
      collectDecFields acc es = none ∨
        ∃ r, collectDecFields acc es = some r ∧ r.2.1 = acc.2.1 := by
  induction es with
  | nil =>
      intro acc _
      exact Or.inr ⟨acc, rfl, rfl⟩
  | cons p rest ih =>
      intro acc h
      simp only [hasKey, List.any_cons, Bool.or_eq_false_iff, decide_eq_false_iff_not] at h
      obtain ⟨hk, hrest⟩ := h
      have hrest2 : hasKey rest "coef" = false := by
        simp only [hasKey]
        exact hrest
      obtain ⟨pa, pv⟩ := p
      cases pa with
      | vAtom k =>
          have hkc : ¬k = "coef" := by
            intro hcontra
            exact hk (by rw [hcontra])
          unfold collectDecFields
          by_cases hks : k = "sign"
          · rw [if_pos hks]
            cases pv with
            | vInt i =>
                dsimp only
                by_cases hb : i < -(2 ^ 63) ∨ 2 ^ 63 - 1 < i
                · rw [if_pos hb]
                  exact Or.inl rfl
                · rw [if_neg hb]
                  exact ih (some i, acc.2.1, acc.2.2) hrest2
            | vAtom a => exact Or.inl rfl
            | vTuple a b => exact Or.inl rfl
            | vStr s2 => exact Or.inl rfl
            | vOther => exact Or.inl rfl
          · rw [if_neg hks, if_neg hkc]
            by_cases hke : k = "exp"
            · rw [if_pos hke]
              cases pv with
              | vInt i =>
                  dsimp only
                  by_cases hb : i < -(2 ^ 63) ∨ 2 ^ 63 - 1 < i
                  · rw [if_pos hb]
                    exact Or.inl rfl
                  · rw [if_neg hb]
                    exact ih (acc.1, acc.2.1, some i) hrest2
              | vAtom a => exact Or.inl rfl
              | vTuple a b => exact Or.inl rfl
              | vStr s2 => exact Or.inl rfl
              | vOther => exact Or.inl rfl
            · rw [if_neg hke]
              exact ih acc hrest2
      | vInt i => exact Or.inl rfl
      | vTuple a b => exact Or.inl rfl
      | vStr s2 => exact Or.inl rfl
      | vOther => exact Or.inl rfl

theorem collectDec_no_exp (es : List (Value × Value)) :
    ∀ acc, hasKey es "exp" = false →
      collectDecFields acc es = none ∨
        ∃ r, collectDecFields acc es = some r ∧ r.2.2 = acc.2.2 := by
  induction es with
  | nil =>
      intro acc _
      exact Or.inr ⟨acc, rfl, rfl⟩
  | cons p rest ih =>
      intro acc h
      simp only [hasKey, List.any_cons, Bool.or_eq_false_iff, decide_eq_false_iff_not] at h
      obtain ⟨hk, hrest⟩ := h
      have hrest2 : hasKey rest "exp" = false := by
        simp only [hasKey]
        exact hrest
      obtain ⟨pa, pv⟩ := p
      cases pa with
      | vAtom k =>
          have hke : ¬k = "exp" := by
            intro hcontra
            exact hk (by rw [hcontra])
          unfold collectDecFields
          by_cases hks : k = "sign"
          · rw [if_pos hks]
            cases pv with
            | vInt i =>
                dsimp only
                by_cases hb : i < -(2 ^ 63) ∨ 2 ^ 63 - 1 < i
                · rw [if_pos hb]
                  exact Or.inl rfl
                · rw [if_neg hb]
                  exact ih (some i, acc.2.1, acc.2.2) hrest2
            | vAtom a => exact Or.inl rfl
            | vTuple a b => exact Or.inl rfl
            | vStr s2 => exact Or.inl rfl
            | vOther => exact Or.inl rfl
          · rw [if_neg hks]
            by_cases hkc : k = "coef"
            · rw [if_pos hkc]
              exact ih (acc.1, some pv, acc.2.2) hrest2
            · rw [if_neg hkc, if_neg hke]
              exact ih acc hrest2
      | vInt i => exact Or.inl rfl
      | vTuple a b => exact Or.inl rfl
      | vStr s2 => exact Or.inl rfl
      | vOther => exact Or.inl rfl

theorem tryDecode_missing_sign (es : List (Value × Value)) (h : hasKey es "sign" = false) :
    tryDecodeDecimalStruct es = none := by
  unfold tryDecodeDecimalStruct
  rcases collectDec_no_sign es (none, none, none) h with hc | ⟨r, hr, hr1⟩
  · rw [hc]
  · obtain ⟨r1, r2, r3⟩ := r
    have h1 : r1 = none := hr1
    subst h1
    rw [hr]

theorem tryDecode_missing_coef (es : List (Value × Value)) (h : hasKey es "coef" = false) :
    tryDecodeDecimalStruct es = none := by
  unfold tryDecodeDecimalStruct
  rcases collectDec_no_coef es (none, none, none) h with hc | ⟨r, hr, hr1⟩
  · rw [hc]
  · obtain ⟨r1, r2, r3⟩ := r
    have h1 : r2 = none := hr1
    subst h1
    rw [hr]
    cases r1 <;> cases r3 <;> rfl

theorem tryDecode_missing_exp (es : List (Value × Value)) (h : hasKey es "exp" = false) :
    tryDecodeDecimalStruct es = none := by
  unfold tryDecodeDecimalStruct
  rcases collectDec_no_exp es (none, none, none) h with hc | ⟨r, hr, hr1⟩
  · rw [hc]
  · obtain ⟨r1, r2, r3⟩ := r
    have h1 : r3 = none := hr1
    subst h1
    rw [hr]
    cases r1 <;> cases r2 <;> rfl

theorem collect_three (s e : Int) (c : Value)
    (hs : ¬(s < -(2 ^ 63) ∨ 2 ^ 63 - 1 < s)) (he : ¬(e < -(2 ^ 63) ∨ 2 ^ 63 - 1 < e)) :
    collectDecFields (none, none, none)
      [(Value.vAtom "sign", Value.vInt s), (Value.vAtom "coef", c),
       (Value.vAtom "exp", Value.vInt e)] =
      some (some s, some c, some e) := by
  unfold collectDecFields
  rw [if_pos rfl]
  dsimp only
  rw [if_neg hs]
  unfold collectDecFields
  rw [if_neg (by decide : ¬"coef" = "sign"), if_pos rfl]
  unfold collectDecFields
  rw [if_neg (by decide : ¬"exp" = "sign"), if_neg (by decide : ¬"exp" = "coef"), if_pos rfl]
  dsimp only
  rw [if_neg he]
  rfl

/-! ## Claim C3 -/

/-- C3 (amended): for an input triple `{sign, coef, exp}` with
`sign ∈ {+1, -1}`, an integer coefficient and an exponent fitting the
signed 16-bit range, the constructor yields exactly
`sign * coef * 10^exp` provided the coefficient is nonnegative or the sign
is `+1` (for `sign = -1` the decoder forces the sign negative, so a
negative coefficient yields `coef * 10^exp` instead, see the
counterexample); it fails when the exponent overflows the 16-bit range,
when the coefficient cannot be parsed as an integer, and when any of the
three fields is missing. -/
theorem C3_decimal_triple_amended (s c e : Int)
    (hs : s = 1 ∨ s = -1) (he : -32768 ≤ e ∧ e ≤ 32767) (hc : 0 ≤ c ∨ s = 1) :
    (∃ d, tryDecodeDecimalStruct
        [(Value.vAtom "sign", Value.vInt s), (Value.vAtom "coef", Value.vInt c),
         (Value.vAtom "exp", Value.vInt e)] = some d ∧
        val d = (s : ℚ) * (c : ℚ) * (10 : ℚ) ^ e) ∧
    (∀ e2 : Int, e2 < -32768 ∨ 32767 < e2 →
      tryDecodeDecimalStruct
        [(Value.vAtom "sign", Value.vInt s), (Value.vAtom "coef", Value.vInt c),
         (Value.vAtom "exp", Value.vInt e2)] = none) ∧
    (∀ v : Value, (∀ i : Int, v ≠ Value.vInt i) →
      tryDecodeDecimalStruct
        [(Value.vAtom "sign", Value.vInt s), (Value.vAtom "coef", v),
         (Value.vAtom "exp", Value.vInt e)] = none) ∧
    (∀ es, hasKey es "sign" = false ∨ hasKey es "coef" = false ∨ hasKey es "exp" = false →
      tryDecodeDecimalStruct es = none) := by
  have hs64 : ¬(s < -(2 ^ 63) ∨ 2 ^ 63 - 1 < s) := by omega
  have he64 : ¬(e < -(2 ^ 63) ∨ 2 ^ 63 - 1 < e) := by omega
  refine ⟨?_, ?_, ?_, ?_⟩
  · have heval : tryDecodeDecimalStruct
        [(Value.vAtom "sign", Value.vInt s), (Value.vAtom "coef", Value.vInt c),
         (Value.vAtom "exp", Value.vInt e)] =
        some (if s < 0 then setSignNegative (multiplyPow10 (fromInt c) e)
              else multiplyPow10 (fromInt c) e) := by
      unfold tryDecodeDecimalStruct
      rw [collect_three s e (Value.vInt c) hs64 he64]
      dsimp only
      rw [if_neg (by omega : ¬(e < -(2 ^ 15) ∨ 2 ^ 15 - 1 < e))]
      dsimp only [decodeCoefTerm]
    refine ⟨_, heval, ?_⟩
    by_cases hneg : s < 0
    · rw [if_pos hneg]
      have hsm : s = -1 := by omega
      subst hsm
      have hc0 : 0 ≤ c := by
        rcases hc with h | h
        · exact h
        · omega
      rw [val_setSignNegative]
      dsimp only [multiplyPow10, fromInt]
      rw [Int.cast_natAbs, abs_of_nonneg hc0, zero_add]
      push_cast
      ring
    · rw [if_neg hneg]
      rw [val_multiplyPow10, val_fromInt]
      have hs1 : s = 1 := by omega
      subst hs1
      push_cast
      ring
  · intro e2 he2
    by_cases hbig : e2 < -(2 ^ 63) ∨ 2 ^ 63 - 1 < e2
    · unfold tryDecodeDecimalStruct
      unfold collectDecFields
      rw [if_pos rfl]
      dsimp only
      rw [if_neg hs64]
      unfold collectDecFields
      rw [if_neg (by decide : ¬"coef" = "sign"), if_pos rfl]
      unfold collectDecFields
      rw [if_neg (by decide : ¬"exp" = "sign"), if_neg (by decide : ¬"exp" = "coef"),
        if_pos rfl]
      dsimp only
      rw [if_pos hbig]
    · unfold tryDecodeDecimalStruct
      rw [collect_three s e2 (Value.vInt c) hs64 hbig]
      dsimp only
      rw [if_pos (by omega : e2 < -(2 ^ 15) ∨ 2 ^ 15 - 1 < e2)]
  · intro v hv
    unfold tryDecodeDecimalStruct
    rw [collect_three s e v hs64 he64]
    dsimp only
    rw [if_neg (by omega : ¬(e < -(2 ^ 15) ∨ 2 ^ 15 - 1 < e))]
    cases v with
    | vInt i => exact absurd rfl (hv i)
    | vAtom a => rfl
    | vTuple a b => rfl
    | vStr s2 => rfl
    | vOther => rfl
  · intro es hmiss
    rcases hmiss with h | h | h
    · exact tryDecode_missing_sign es h
    · exact tryDecode_missing_coef es h
    · exact tryDecode_missing_exp es h

/-- Counterexample to C3 as stated: the triple `{sign: -1, coef: -5, exp: 0}`
decodes successfully to the value `-5`, but
`sign * coef * 10^exp = (-1) * (-5) * 1 = 5`. -/
theorem C3_counterexample :
    tryDecodeDecimalStruct
      [(Value.vAtom "sign", Value.vInt (-1)), (Value.vAtom "coef", Value.vInt (-5)),
       (Value.vAtom "exp", Value.vInt 0)] =
      some ⟨Sign.negative, 5, 0, 0, 0⟩ ∧
    val ⟨Sign.negative, 5, 0, 0, 0⟩ = -5 ∧
    ((-1 : ℚ)) * ((-5 : Int) : ℚ) * (10 : ℚ) ^ ((0 : Int)) = 5 ∧
    (-5 : ℚ) ≠ (5 : ℚ) := by
  refine ⟨by decide, ?_, by norm_num, by norm_num⟩
  unfold val signFactor
  norm_num

/-- Witness for C3 at the triple `{sign: 1, coef: 12345, exp: -2}`, whose
value is `123.45`. -/
theorem C3_decimal_triple_amended_witness :
    ∃ d, tryDecodeDecimalStruct
        [(Value.vAtom "sign", Value.vInt 1), (Value.vAtom "coef", Value.vInt 12345),
         (Value.vAtom "exp", Value.vInt (-2))] = some d ∧
      val d = ((1 : Int) : ℚ) * ((12345 : Int) : ℚ) * (10 : ℚ) ^ ((-2 : Int)) :=
  (C3_decimal_triple_amended 1 12345 (-2) (Or.inl rfl) (by norm_num)
    (Or.inl (by norm_num))).1

theorem numberLoop_err (p : Value × Value)
    (herr : ∀ c, numberDecodeEntry c p = Except.error ()) :
    ∀ es, p ∈ es → ∀ c, numberDecodeLoop c es = Except.error () := by
  intro es
  induction es with
  | nil =>
      intro h
      cases h
  | cons q rest ih =>
      intro hp c
      rcases List.mem_cons.mp hp with hpq | hmem
      · subst hpq
        unfold numberDecodeLoop
        rw [herr c]
      · unfold numberDecodeLoop
        cases hq : numberDecodeEntry c q with
        | error u =>
            cases u
            rfl
        | ok c2 => exact ih hmem c2

theorem listLoop_err (p : Value × Value)
    (herr : ∀ c, listDecodeEntry c p = Except.error ()) :
    ∀ es, p ∈ es → ∀ c, listDecodeLoop c es = Except.error () := by
  intro es
  induction es with
  | nil =>
      intro h
      cases h
  | cons q rest ih =>
      intro hp c
      rcases List.mem_cons.mp hp with hpq | hmem
      · subst hpq
        unfold listDecodeLoop
        rw [herr c]
      · unfold listDecodeLoop
        cases hq : listDecodeEntry c q with
        | error u =>
            cases u
            rfl
        | ok c2 => exact ih hmem c2

theorem numberEntry_unknown (k : String) (v : Value)
    (hk : ¬(k = "minimum_integer_digits" ∨ k = "minimum_fraction_digits" ∨
      k = "maximum_fraction_digits" ∨ k = "grouping" ∨ k = "sign_display")) :
    ∀ c, numberDecodeEntry c (Value.vAtom k, v) = Except.error () := by
  intro c
  push_neg at hk
  unfold numberDecodeEntry
  dsimp only
  rw [if_neg hk.1, if_neg hk.2.1, if_neg hk.2.2.1, if_neg hk.2.2.2.1,
    if_neg hk.2.2.2.2]

theorem numberEntry_bad_grouping (v : Value)
    (hv : ∀ a, v = Value.vAtom a →
      ¬(a = "auto" ∨ a = "always" ∨ a = "min2" ∨ a = "never")) :
    ∀ c, numberDecodeEntry c (Value.vAtom "grouping", v) = Except.error () := by
  intro c
  unfold numberDecodeEntry
  dsimp only
  rw [if_neg (by decide : ¬"grouping" = "minimum_integer_digits"),
    if_neg (by decide : ¬"grouping" = "minimum_fraction_digits"),
    if_neg (by decide : ¬"grouping" = "maximum_fraction_digits"), if_pos rfl]
  cases v with
  | vAtom a =>
      have h := hv a rfl
      push_neg at h
      dsimp only
      rw [if_neg h.1, if_neg h.2.1, if_neg h.2.2.1, if_neg h.2.2.2]
  | vInt i => rfl
  | vTuple a b => rfl
  | vStr s => rfl
  | vOther => rfl

theorem numberEntry_bad_sign_display (v : Value)
    (hv : ∀ a, v = Value.vAtom a →
      ¬(a = "auto" ∨ a = "always" ∨ a = "never" ∨ a = "except_zero" ∨ a = "negative")) :
    ∀ c, numberDecodeEntry c (Value.vAtom "sign_display", v) = Except.error () := by
  intro c
  unfold numberDecodeEntry
  dsimp only
  rw [if_neg (by decide : ¬"sign_display" = "minimum_integer_digits"),
    if_neg (by decide : ¬"sign_display" = "minimum_fraction_digits"),
    if_neg (by decide : ¬"sign_display" = "maximum_fraction_digits"),
    if_neg (by decide : ¬"sign_display" = "grouping"), if_pos rfl]
  cases v with
  | vAtom a =>
      have h := hv a rfl
      push_neg at h
      dsimp only
      rw [if_neg h.1, if_neg h.2.1, if_neg h.2.2.1, if_neg h.2.2.2.1, if_neg h.2.2.2.2]
  | vInt i => rfl
  | vTuple a b => rfl
  | vStr s => rfl
  | vOther => rfl

theorem listEntry_unknown_nonnil (k : String) (v : Value)
    (hk : ¬(k = "type" ∨ k = "width" ∨ k = "locale")) (hv : v ≠ Value.vAtom "nil") :
    ∀ c, listDecodeEntry c (Value.vAtom k, v) = Except.error () := by
  intro c
  push_neg at hk
  unfold listDecodeEntry
  dsimp only
  rw [if_neg hk.1, if_neg hk.2.1, if_neg hk.2.2]
  cases v with
  | vAtom a =>
      have ha : ¬a = "nil" := by
        intro h
        exact hv (by rw [h])
      dsimp only
      rw [if_neg ha]
  | vInt i => rfl
  | vTuple a b => rfl
  | vStr s => rfl
  | vOther => rfl

theorem listEntry_unknown_nil (k : String)
    (hk : ¬(k = "type" ∨ k = "width" ∨ k = "locale")) (c : ListConfig) :
    listDecodeEntry c (Value.vAtom k, Value.vAtom "nil") = Except.ok c := by
  push_neg at hk
  unfold listDecodeEntry
  dsimp only
  rw [if_neg hk.1, if_neg hk.2.1, if_neg hk.2.2]
  rw [if_pos rfl]

theorem listEntry_locale (v : Value) (c : ListConfig) :
    listDecodeEntry c (Value.vAtom "locale", v) = Except.ok c := by
  rfl

/-! ## Claim C7 -/

/-- C7: number-formatter option validation at construction rejects (as
`invalid_options`) any options map whose decoded configuration would have
`maximum_fraction_digits < minimum_fraction_digits`, and any unknown
grouping or sign-display symbolic value; when keys are omitted, the
defaults are minimum integer digits 1, minimum fraction digits 0, maximum
fraction digits 3, automatic grouping and automatic sign display. -/
theorem C7_options_validation :
    (∀ es c, numberDecodeConfig (OptionsTerm.mapT es) = Except.ok c →
      ∀ m, c.maximumFractionDigits = some m → c.minimumFractionDigits ≤ m) ∧
    (∀ es v, (Value.vAtom "grouping", v) ∈ es →
      (∀ a, v = Value.vAtom a →
        ¬(a = "auto" ∨ a = "always" ∨ a = "min2" ∨ a = "never")) →
      numberFormatterNewConfig (OptionsTerm.mapT es) =
        Except.error FmtError.invalidOptions) ∧
    (∀ es v, (Value.vAtom "sign_display", v) ∈ es →
      (∀ a, v = Value.vAtom a →
        ¬(a = "auto" ∨ a = "always" ∨ a = "never" ∨ a = "except_zero" ∨
          a = "negative")) →
      numberFormatterNewConfig (OptionsTerm.mapT es) =
        Except.error FmtError.invalidOptions) ∧
    numberFormatterNewConfig (OptionsTerm.mapT
      [(Value.vAtom "maximum_fraction_digits", Value.vInt 1),
       (Value.vAtom "minimum_fraction_digits", Value.vInt 2)]) =
      Except.error FmtError.invalidOptions ∧
    numberDecodeConfig (OptionsTerm.atomT "nil") = Except.ok defaultConfig ∧
    numberDecodeConfig (OptionsTerm.mapT []) = Except.ok defaultConfig ∧
    defaultConfig = ⟨1, 0, some 3, GroupingStrategy.auto, SignDisplay.auto⟩ := by
  refine ⟨?_, ?_, ?_, by rfl, by rfl, by rfl, by rfl⟩
  · intro es c h m hm
    unfold numberDecodeConfig at h
    dsimp only at h
    cases hl : numberDecodeLoop defaultConfig es with
    | error u =>
        rw [hl] at h
        simp at h
    | ok c2 =>
        rw [hl] at h
        dsimp only at h
        cases hmf : c2.maximumFractionDigits with
        | none =>
            rw [hmf] at h
            simp at h
            subst h
            rw [hmf] at hm
            cases hm
        | some m2 =>
            rw [hmf] at h
            dsimp only at h
            by_cases hlt : m2 < c2.minimumFractionDigits
            · rw [if_pos hlt] at h
              simp at h
            · rw [if_neg hlt] at h
              simp at h
              subst h
              rw [hmf] at hm
              injection hm with hm2
              omega
  · intro es v hmem hv
    unfold numberFormatterNewConfig numberDecodeConfig
    dsimp only
    rw [numberLoop_err (Value.vAtom "grouping", v) (numberEntry_bad_grouping v hv)
      es hmem defaultConfig]
  · intro es v hmem hv
    unfold numberFormatterNewConfig numberDecodeConfig
    dsimp only
    rw [numberLoop_err (Value.vAtom "sign_display", v)
      (numberEntry_bad_sign_display v hv) es hmem defaultConfig]

/-- Witness for C7: the unknown grouping value `sometimes` is rejected as
`invalid_options`. -/
theorem C7_options_validation_witness :
    numberFormatterNewConfig (OptionsTerm.mapT
      [(Value.vAtom "grouping", Value.vAtom "sometimes")]) =
      Except.error FmtError.invalidOptions :=
  C7_options_validation.2.1 [(Value.vAtom "grouping", Value.vAtom "sometimes")]
    (Value.vAtom "sometimes") (by decide)
    (by
      intro a ha
      cases ha
      decide)

/-! ## Claim C10 -/

/-- C10: the number-formatter options decoder rejects every unrecognized
key regardless of its value (nil included), surfaced as `invalid_options`;
the list-formatter options decoder skips unrecognized keys whose value is
the atom `nil` and the `locale` key with any value, and rejects an
unrecognized key exactly when its value is not `nil`. -/
theorem C10_unknown_key_policy :
    (∀ es (k : String) v, (Value.vAtom k, v) ∈ es →
      ¬(k = "minimum_integer_digits" ∨ k = "minimum_fraction_digits" ∨
        k = "maximum_fraction_digits" ∨ k = "grouping" ∨ k = "sign_display") →
      numberFormatterNewConfig (OptionsTerm.mapT es) =
        Except.error FmtError.invalidOptions) ∧
    (∀ es (k : String) v, (Value.vAtom k, v) ∈ es →
      ¬(k = "type" ∨ k = "width" ∨ k = "locale") → v ≠ Value.vAtom "nil" →
      listDecodeConfig (OptionsTerm.mapT es) = Except.error ()) ∧
    (∀ (k : String) es, ¬(k = "type" ∨ k = "width" ∨ k = "locale") →
      listDecodeConfig (OptionsTerm.mapT ((Value.vAtom k, Value.vAtom "nil") :: es)) =
        listDecodeConfig (OptionsTerm.mapT es)) ∧
    (∀ v es, listDecodeConfig (OptionsTerm.mapT ((Value.vAtom "locale", v) :: es)) =
        listDecodeConfig (OptionsTerm.mapT es)) := by
  refine ⟨?_, ?_, ?_, ?_⟩
  · intro es k v hmem hk
    unfold numberFormatterNewConfig numberDecodeConfig
    dsimp only
    rw [numberLoop_err (Value.vAtom k, v) (numberEntry_unknown k v hk)
      es hmem defaultConfig]
  · intro es k v hmem hk hv
    unfold listDecodeConfig
    dsimp only
    rw [listLoop_err (Value.vAtom k, v) (listEntry_unknown_nonnil k v hk hv)
      es hmem defaultListConfig]
  · intro k es hk
    unfold listDecodeConfig
    dsimp only
    simp only [listDecodeLoop]
    rw [listEntry_unknown_nil k hk defaultListConfig]
  · intro v es
    unfold listDecodeConfig
    dsimp only
    simp only [listDecodeLoop]
    rw [listEntry_locale v defaultListConfig]

/-- Witness for C10: the number decoder rejects the unknown key `foo` even
with value `nil`, while the list decoder accepts it. -/
theorem C10_unknown_key_policy_witness :
    numberFormatterNewConfig (OptionsTerm.mapT
      [(Value.vAtom "foo", Value.vAtom "nil")]) =
      Except.error FmtError.invalidOptions ∧
    listDecodeConfig (OptionsTerm.mapT [(Value.vAtom "foo", Value.vAtom "nil")]) =
      listDecodeConfig (OptionsTerm.mapT []) :=
  ⟨C10_unknown_key_policy.1 [(Value.vAtom "foo", Value.vAtom "nil")] "foo"
      (Value.vAtom "nil") (by decide) (by decide),
    C10_unknown_key_policy.2.2.1 "foo" [] (by decide)⟩

set_option maxHeartbeats 2000000 in
theorem temporalEntry_fields (s : TemporalFields) (kv v : Value) (s2 : TemporalFields)
    (h : temporalDecodeEntry s (kv, v) = Except.ok s2) :
    (s2.year.isSome = true ↔ (s.year.isSome = true ∨ kv = Value.vAtom "year")) ∧
    (s2.month.isSome = true ↔ (s.month.isSome = true ∨ kv = Value.vAtom "month")) ∧
    (s2.day.isSome = true ↔ (s.day.isSome = true ∨ kv = Value.vAtom "day")) ∧
    (s2.hour.isSome = true ↔ (s.hour.isSome = true ∨ kv = Value.vAtom "hour")) ∧
    (s2.minute.isSome = true ↔ (s.minute.isSome = true ∨ kv = Value.vAtom "minute")) ∧
    (s2.second.isSome = true ↔ (s.second.isSome = true ∨ kv = Value.vAtom "second")) ∧
    (s2.microsecond.isSome = true ↔
      (s.microsecond.isSome = true ∨ kv = Value.vAtom "microsecond")) := by
  cases kv with
  | vAtom k =>
      unfold temporalDecodeEntry at h
      dsimp only at h
      cases v <;> dsimp only at h <;> split_ifs at h <;>
        first
        | exact Except.noConfusion h
        | (injection h with h2
           subst h2
           simp_all)
  | vInt i => simp [temporalDecodeEntry] at h
  | vTuple a b => simp [temporalDecodeEntry] at h
  | vStr st => simp [temporalDecodeEntry] at h
  | vOther => simp [temporalDecodeEntry] at h

theorem temporalLoop_fields (es : List (Value × Value)) :
    ∀ s s2, temporalDecodeLoop s es = Except.ok s2 →
      (s2.year.isSome = true ↔ (s.year.isSome = true ∨ hasKey es "year" = true)) ∧
      (s2.month.isSome = true ↔ (s.month.isSome = true ∨ hasKey es "month" = true)) ∧
      (s2.day.isSome = true ↔ (s.day.isSome = true ∨ hasKey es "day" = true)) ∧
      (s2.hour.isSome = true ↔ (s.hour.isSome = true ∨ hasKey es "hour" = true)) ∧
      (s2.minute.isSome = true ↔ (s.minute.isSome = true ∨ hasKey es "minute" = true)) ∧
      (s2.second.isSome = true ↔ (s.second.isSome = true ∨ hasKey es "second" = true)) ∧
      (s2.microsecond.isSome = true ↔
        (s.microsecond.isSome = true ∨ hasKey es "microsecond" = true)) := by
  induction es with
  | nil =>
      intro s s2 h
      unfold temporalDecodeLoop at h
      injection h with h2
      subst h2
      simp [hasKey]
  | cons e rest ih =>
      intro s s2 h
      unfold temporalDecodeLoop at h
      cases he : temporalDecodeEntry s e with
      | error u =>
          rw [he] at h
          exact Except.noConfusion h
      | ok s1 =>
          rw [he] at h
          dsimp only at h
          obtain ⟨e1, e2⟩ := e
          obtain ⟨f1, f2, f3, f4, f5, f6, f7⟩ := temporalEntry_fields s e1 e2 s1 he
          obtain ⟨l1, l2, l3, l4, l5, l6, l7⟩ := ih s1 s2 h
          clear h he ih
          refine ⟨?_, ?_, ?_, ?_, ?_, ?_, ?_⟩
          · rw [l1, f1]
            simp only [hasKey, List.any_cons, Bool.or_eq_true, decide_eq_true_eq]
            exact or_assoc
          · rw [l2, f2]
            simp only [hasKey, List.any_cons, Bool.or_eq_true, decide_eq_true_eq]
            exact or_assoc
          · rw [l3, f3]
            simp only [hasKey, List.any_cons, Bool.or_eq_true, decide_eq_true_eq]
            exact or_assoc
          · rw [l4, f4]
            simp only [hasKey, List.any_cons, Bool.or_eq_true, decide_eq_true_eq]
            exact or_assoc
          · rw [l5, f5]
            simp only [hasKey, List.any_cons, Bool.or_eq_true, decide_eq_true_eq]
            exact or_assoc
          · rw [l6, f6]
            simp only [hasKey, List.any_cons, Bool.or_eq_true, decide_eq_true_eq]
            exact or_assoc
          · rw [l7, f7]
            simp only [hasKey, List.any_cons, Bool.or_eq_true, decide_eq_true_eq]
            exact or_assoc

theorem timeCheckOk_all (s : TemporalFields) (h : timeCheckOk s = true)
    (hp : s.hour.isSome = true ∨ s.minute.isSome = true ∨ s.second.isSome = true ∨
      s.microsecond.isSome = true) :
    s.hour.isSome = true ∧ s.minute.isSome = true ∧ s.second.isSome = true ∧
      s.microsecond.isSome = true := by
  unfold timeCheckOk at h
  have hcond : (s.hour.isSome || s.minute.isSome || s.second.isSome ||
      s.microsecond.isSome) = true := by
    rcases hp with h2 | h2 | h2 | h2 <;> simp [h2]
  rw [if_pos hcond] at h
  cases hus : s.microsecond <;> cases hh : s.hour <;> cases hmi : s.minute <;>
    cases hse : s.second <;> rw [hus, hh, hmi, hse] at h <;> simp_all

theorem dateCheckOk_all (s : TemporalFields) (h : dateCheckOk s = true)
    (hp : s.year.isSome = true ∨ s.month.isSome = true ∨ s.day.isSome = true) :
    s.year.isSome = true ∧ s.month.isSome = true ∧ s.day.isSome = true := by
  unfold dateCheckOk at h
  have hcond : (s.year.isSome || s.month.isSome || s.day.isSome) = true := by
    rcases hp with h2 | h2 | h2 <;> simp [h2]
  rw [if_pos hcond] at h
  cases hy : s.year <;> cases hmo : s.month <;> cases hd : s.day <;>
    rw [hy, hmo, hd] at h <;> simp_all

/-! ## Claim C9 -/

/-- C9: a temporal input map that decodes successfully satisfies
all-or-nothing field presence: if any of hour/minute/second/microsecond is
present, all four are; if any of year/month/day is present, all three are.
In particular a map with hour, minute and second but no microsecond key is
rejected and surfaced as `invalid_datetime`. -/
theorem C9_temporal_all_or_none (es : List (Value × Value)) :
    (∀ s2, decodeTemporal (OptionsTerm.mapT es) = Except.ok s2 →
      ((hasKey es "hour" = true ∨ hasKey es "minute" = true ∨ hasKey es "second" = true ∨
          hasKey es "microsecond" = true) →
        hasKey es "hour" = true ∧ hasKey es "minute" = true ∧ hasKey es "second" = true ∧
          hasKey es "microsecond" = true) ∧
      ((hasKey es "year" = true ∨ hasKey es "month" = true ∨ hasKey es "day" = true) →
        hasKey es "year" = true ∧ hasKey es "month" = true ∧ hasKey es "day" = true)) ∧
    temporalFormatInput (OptionsTerm.mapT
      [(Value.vAtom "hour", Value.vInt 1), (Value.vAtom "minute", Value.vInt 2),
       (Value.vAtom "second", Value.vInt 3)]) = Except.error FmtError.invalidDatetime := by
  constructor
  · intro s2 h
    unfold decodeTemporal at h
    dsimp only at h
    cases hl : temporalDecodeLoop emptyTemporalFields es with
    | error u =>
        rw [hl] at h
        exact Except.noConfusion h
    | ok s1 =>
        rw [hl] at h
        dsimp only at h
        cases hb : (dateCheckOk s1 && timeCheckOk s1) with
        | false =>
            rw [hb] at h
            simp at h
        | true =>
            rw [hb] at h
            simp only [if_true] at h
            injection h with h2
            subst h2
            obtain ⟨hdate, htime⟩ : dateCheckOk s1 = true ∧ timeCheckOk s1 = true := by
              simpa using hb
            obtain ⟨l1, l2, l3, l4, l5, l6, l7⟩ :=
              temporalLoop_fields es emptyTemporalFields s1 hl
            simp only [emptyTemporalFields, Option.isSome_none, Bool.false_eq_true,
              false_or] at l1 l2 l3 l4 l5 l6 l7
            constructor
            · intro hp
              have hsome : s1.hour.isSome = true ∨ s1.minute.isSome = true ∨
                  s1.second.isSome = true ∨ s1.microsecond.isSome = true := by
                rcases hp with h2 | h2 | h2 | h2
                · exact Or.inl (l4.mpr h2)
                · exact Or.inr (Or.inl (l5.mpr h2))
                · exact Or.inr (Or.inr (Or.inl (l6.mpr h2)))
                · exact Or.inr (Or.inr (Or.inr (l7.mpr h2)))
              obtain ⟨a1, a2, a3, a4⟩ := timeCheckOk_all s1 htime hsome
              exact ⟨l4.mp a1, l5.mp a2, l6.mp a3, l7.mp a4⟩
            · intro hp
              have hsome : s1.year.isSome = true ∨ s1.month.isSome = true ∨
                  s1.day.isSome = true := by
                rcases hp with h2 | h2 | h2
                · exact Or.inl (l1.mpr h2)
                · exact Or.inr (Or.inl (l2.mpr h2))
                · exact Or.inr (Or.inr (l3.mpr h2))
              obtain ⟨a1, a2, a3⟩ := dateCheckOk_all s1 hdate hsome
              exact ⟨l1.mp a1, l2.mp a2, l3.mp a3⟩
  · rfl

/-- Witness for C9 at a complete time map: decoding succeeds, so all four
time keys are reported present. -/
theorem C9_temporal_all_or_none_witness :
    hasKey [(Value.vAtom "hour", Value.vInt 1), (Value.vAtom "minute", Value.vInt 2),
        (Value.vAtom "second", Value.vInt 3), (Value.vAtom "microsecond", Value.vTuple 0 0)]
      "hour" = true ∧
    hasKey [(Value.vAtom "hour", Value.vInt 1), (Value.vAtom "minute", Value.vInt 2),
        (Value.vAtom "second", Value.vInt 3), (Value.vAtom "microsecond", Value.vTuple 0 0)]
      "minute" = true ∧
    hasKey [(Value.vAtom "hour", Value.vInt 1), (Value.vAtom "minute", Value.vInt 2),
        (Value.vAtom "second", Value.vInt 3), (Value.vAtom "microsecond", Value.vTuple 0 0)]
      "second" = true ∧
    hasKey [(Value.vAtom "hour", Value.vInt 1), (Value.vAtom "minute", Value.vInt 2),
        (Value.vAtom "second", Value.vInt 3), (Value.vAtom "microsecond", Value.vTuple 0 0)]
      "microsecond" = true :=
  ((C9_temporal_all_or_none
      [(Value.vAtom "hour", Value.vInt 1), (Value.vAtom "minute", Value.vInt 2),
       (Value.vAtom "second", Value.vInt 3),
       (Value.vAtom "microsecond", Value.vTuple 0 0)]).1
    ⟨none, none, none, some 1, some 2, some 3, some (0, 0)⟩ (by rfl)).1
    (Or.inl (by decide))

mutual

theorem runOp_extend (c : Collector) : ∀ (op : WOp),
    ∃ ext ps, runOp c op = ⟨c.output ++ ext, c.parts ++ ps⟩ ∧
      (ext = [] → ps = []) ∧
      (∀ sp ∈ ps, c.output.length ≤ sp.start ∧ sp.start < sp.stop ∧
        sp.stop ≤ c.output.length + ext.length)
  | WOp.str s => by
      refine ⟨s, [], by simp [runOp], fun _ => rfl, ?_⟩
      intro sp hsp
      cases hsp
  | WOp.part t ops => by
      obtain ⟨ext, ps, heq, hz, hb⟩ := runOps_extend c ops
      unfold runOp
      rw [heq]
      by_cases hlen : c.output.length < (c.output ++ ext).length
      · rw [if_pos (by simpa using hlen)]
        refine ⟨ext, ps ++ [⟨c.output.length, (c.output ++ ext).length, t⟩], ?_, ?_, ?_⟩
        · simp
        · intro h
          subst h
          simp at hlen
        · intro sp hsp
          rcases List.mem_append.mp hsp with hmem | hmem
          · exact ⟨(hb sp hmem).1, (hb sp hmem).2.1, by
              have := (hb sp hmem).2.2
              simpa using this⟩
          · rcases List.mem_singleton.mp hmem with rfl
            refine ⟨le_refl _, by simpa using hlen, by simp⟩
      · rw [if_neg (by simpa using hlen)]
        refine ⟨ext, ps, rfl, hz, hb⟩

theorem runOps_extend (c : Collector) : ∀ (ops : List WOp),
    ∃ ext ps, runOps c ops = ⟨c.output ++ ext, c.parts ++ ps⟩ ∧
      (ext = [] → ps = []) ∧
      (∀ sp ∈ ps, c.output.length ≤ sp.start ∧ sp.start < sp.stop ∧
        sp.stop ≤ c.output.length + ext.length)
  | [] => by
      refine ⟨[], [], by simp [runOps], fun _ => rfl, ?_⟩
      intro sp hsp
      cases hsp
  | op :: rest => by
      obtain ⟨e1, p1, h1, hz1, hb1⟩ := runOp_extend c op
      obtain ⟨e2, p2, h2, hz2, hb2⟩ := runOps_extend (runOp c op) rest
      rw [h1] at h2 hb2
      dsimp only at h2 hb2
      refine ⟨e1 ++ e2, p1 ++ p2, ?_, ?_, ?_⟩
      · show runOps (runOp c op) rest = _
        rw [h1, h2]
        simp
      · intro h
        have he1 : e1 = [] := by
          cases e1 with
          | nil => rfl
          | cons a l => simp at h
        have he2 : e2 = [] := by
          cases e2 with
          | nil => rfl
          | cons a l =>
              rw [he1] at h
              simp at h
        rw [hz1 he1, hz2 he2]
        rfl
      · intro sp hsp
        rcases List.mem_append.mp hsp with hmem | hmem
        · obtain ⟨b1, b2, b3⟩ := hb1 sp hmem
          refine ⟨b1, b2, ?_⟩
          simp only [List.length_append]
          omega
        · obtain ⟨b1, b2, b3⟩ := hb2 sp hmem
          simp only [List.length_append] at b1 b3
          refine ⟨by omega, b2, ?_⟩
          simp only [List.length_append]
          omega

end

theorem drop_split (o : List Char) (a b : Nat) (hab : a ≤ b) :
    o.drop a = (o.drop a).take (b - a) ++ o.drop b := by
  conv_lhs => rw [← List.take_append_drop (b - a) (o.drop a)]
  congr 1
  rw [List.drop_drop]
  congr 1
  omega

theorem flatKnown_le (o : List Char) :
    ∀ spans last, flatKnown o spans last = true → last ≤ o.length := by
  intro spans
  induction spans with
  | nil =>
      intro last h
      unfold flatKnown at h
      exact of_decide_eq_true h
  | cons sp rest ih =>
      intro last h
      unfold flatKnown at h
      simp only [Bool.and_eq_true, decide_eq_true_eq] at h
      obtain ⟨⟨⟨h1, h2⟩, _⟩, h4⟩ := h
      have := ih sp.stop h4
      omega

theorem dtExtract_concat (o : List Char) :
    ∀ spans last, flatKnown o spans last = true →
      partsText (dtExtract o spans last) = o.drop last := by
  intro spans
  induction spans with
  | nil =>
      intro last h
      have hle : last ≤ o.length := flatKnown_le o [] last h
      unfold dtExtract
      by_cases hlt : last < o.length
      · rw [if_pos hlt]
        unfold sliceOpt
        rw [if_pos ⟨hle, le_refl o.length⟩]
        dsimp only
        have hlen : ((o.drop last).take (o.length - last)).length = o.length - last := by
          rw [List.length_take, List.length_drop]
          omega
        have hne : ((o.drop last).take (o.length - last)).isEmpty = false := by
          rw [List.isEmpty_eq_false_iff_exists_mem]
          have hpos : 0 < ((o.drop last).take (o.length - last)).length := by omega
          exact List.exists_mem_of_length_pos hpos
        rw [hne]
        simp only [Bool.false_eq_true, if_false]
        unfold partsText
        simp only [List.map_cons, List.map_nil, List.flatten_cons, List.flatten_nil,
          List.append_nil]
        rw [List.take_of_length_le (by rw [List.length_drop])]
      · rw [if_neg hlt]
        have hlast : last = o.length := by omega
        subst hlast
        unfold partsText
        simp [List.drop_length]
  | cons sp rest ih =>
      intro last h
      unfold flatKnown at h
      simp only [Bool.and_eq_true, decide_eq_true_eq] at h
      obtain ⟨⟨⟨h1, h2⟩, h3⟩, h4⟩ := h
      have hstople : sp.stop ≤ o.length := flatKnown_le o rest sp.stop h4
      obtain ⟨atom, hatom⟩ := Option.isSome_iff_exists.mp h3
      unfold dtExtract
      rw [hatom]
      have hcur : sliceOpt o sp.start sp.stop =
          some ((o.drop sp.start).take (sp.stop - sp.start)) := by
        unfold sliceOpt
        rw [if_pos ⟨le_of_lt h2, hstople⟩]
      rw [hcur]
      have hrec := ih sp.stop h4
      by_cases hgap : last < sp.start
      · rw [if_pos hgap]
        have hgapslice : sliceOpt o last sp.start =
            some ((o.drop last).take (sp.start - last)) := by
          unfold sliceOpt
          rw [if_pos ⟨le_of_lt hgap, by omega⟩]
        rw [hgapslice]
        dsimp only
        have hne : ((o.drop last).take (sp.start - last)).isEmpty = false := by
          rw [List.isEmpty_eq_false_iff_exists_mem]
          refine List.exists_mem_of_length_pos ?_
          rw [List.length_take, List.length_drop]
          omega
        rw [hne]
        simp only [Bool.false_eq_true, if_false]
        unfold partsText
        simp only [List.map_append, List.map_cons, List.map_nil, List.flatten_append,
          List.flatten_cons, List.flatten_nil, List.append_nil]
        unfold partsText at hrec
        rw [hrec]
        conv_rhs => rw [drop_split o last sp.start (le_of_lt hgap)]
        conv_rhs => rw [drop_split o sp.start sp.stop (le_of_lt h2)]
        simp [List.append_assoc]
      · rw [if_neg hgap]
        dsimp only
        have hlast : last = sp.start := by omega
        subst hlast
        unfold partsText
        simp only [List.nil_append, List.map_cons, List.map_nil, List.flatten_cons,
          List.flatten_nil, List.append_nil, List.map_append, List.flatten_append]
        unfold partsText at hrec
        rw [hrec]
        conv_rhs => rw [drop_split o sp.start sp.stop (le_of_lt h2)]

theorem dtExtract_nonempty (o : List Char) :
    ∀ spans last, (∀ sp ∈ spans, sp.start < sp.stop ∧ sp.stop ≤ o.length) →
      ∀ p ∈ dtExtract o spans last, p.2 ≠ [] := by
  intro spans
  induction spans with
  | nil =>
      intro last _ p hp
      unfold dtExtract at hp
      by_cases hlt : last < o.length
      · rw [if_pos hlt] at hp
        cases hs : sliceOpt o last o.length with
        | none =>
            rw [hs] at hp
            cases hp
        | some sl =>
            rw [hs] at hp
            dsimp only at hp
            by_cases he : sl.isEmpty = true
            · rw [if_pos he] at hp
              cases hp
            · rw [if_neg he] at hp
              rcases List.mem_singleton.mp hp with rfl
              simp only [List.isEmpty_iff] at he
              exact he
      · rw [if_neg hlt] at hp
        cases hp
  | cons sp rest ih =>
      intro last hb p hp
      have hhead := hb sp (List.mem_cons_self sp rest)
      unfold dtExtract at hp
      rcases List.mem_append.mp hp with hp1 | hp2
      · rcases List.mem_append.mp hp1 with hpg | hpc
        · by_cases hlt : last < sp.start
          · rw [if_pos hlt] at hpg
            cases hs : sliceOpt o last sp.start with
            | none =>
                rw [hs] at hpg
                cases hpg
            | some sl =>
                rw [hs] at hpg
                dsimp only at hpg
                by_cases he : sl.isEmpty = true
                · rw [if_pos he] at hpg
                  cases hpg
                · rw [if_neg he] at hpg
                  rcases List.mem_singleton.mp hpg with rfl
                  simp only [List.isEmpty_iff] at he
                  exact he
          · rw [if_neg hlt] at hpg
            cases hpg
        · cases hdt : dtPartAtom sp.tag with
          | none =>
              rw [hdt] at hpc
              cases hpc
          | some a =>
              rw [hdt] at hpc
              dsimp only at hpc
              have hs : sliceOpt o sp.start sp.stop =
                  some ((o.drop sp.start).take (sp.stop - sp.start)) := by
                unfold sliceOpt
                rw [if_pos ⟨le_of_lt hhead.1, hhead.2⟩]
              rw [hs] at hpc
              rcases List.mem_singleton.mp hpc with rfl
              intro hcon
              have hcon2 : (o.drop sp.start).take (sp.stop - sp.start) = [] := hcon
              have hlen : ((o.drop sp.start).take (sp.stop - sp.start)).length = 0 := by
                rw [hcon2]
                rfl
              rw [List.length_take, List.length_drop] at hlen
              omega
      · refine ih sp.stop ?_ p hp2
        intro sp2 hsp2
        exact hb sp2 (List.mem_cons_of_mem sp hsp2)

/-! ## Claim C8 -/

/-- C8: for every scoped write through the collector, a zero-byte inner
write records no span (the collector is returned unchanged), an inner
write of one or more bytes records exactly one span
`{start, stop, tag}` for that scope with `start < stop`; every span in any
collector run satisfies `start < stop`, and consequently no empty-text
part ever appears in the temporal formatter's parts output. -/
theorem C8_span_recording (c : Collector) (t : WTag) (ops : List WOp)
    (trace : List WOp) :
    ((runOps c ops).output.length = c.output.length →
      runOp c (WOp.part t ops) = runOps c ops) ∧
    (c.output.length < (runOps c ops).output.length →
      (runOp c (WOp.part t ops)).parts =
        (runOps c ops).parts ++
          [⟨c.output.length, (runOps c ops).output.length, t⟩]) ∧
    (∀ sp ∈ (runOps emptyCollector trace).parts, sp.start < sp.stop) ∧
    (∀ p ∈ temporalFormatToParts trace, p.2 ≠ []) := by
  obtain ⟨ext, ps, heq, hz, hb⟩ := runOps_extend emptyCollector trace
  refine ⟨?_, ?_, ?_, ?_⟩
  · intro h
    unfold runOp
    rw [if_neg (by omega)]
  · intro h
    unfold runOp
    rw [if_pos h]
  · intro sp hsp
    rw [heq] at hsp
    simp only [emptyCollector, List.nil_append] at hsp
    exact (hb sp hsp).2.1
  · unfold temporalFormatToParts
    apply dtExtract_nonempty
    intro sp hsp
    rw [heq] at hsp ⊢
    simp only [emptyCollector, List.nil_append] at hsp ⊢
    obtain ⟨b1, b2, b3⟩ := hb sp hsp
    simp only [emptyCollector, List.length_nil, Nat.zero_add] at b3
    exact ⟨b2, b3⟩

/-- Witness for C8: a one-byte scope records exactly its own span. -/
theorem C8_span_recording_witness :
    (runOp emptyCollector (WOp.part WTag.year [WOp.str ['x']])).parts =
      (runOps emptyCollector [WOp.str ['x']]).parts ++
        [⟨emptyCollector.output.length,
          (runOps emptyCollector [WOp.str ['x']]).output.length, WTag.year⟩] :=
  (C8_span_recording emptyCollector WTag.year [WOp.str ['x']] []).2.1 (by decide)

/-! ## Claim C5 -/

/-- Counterexample to C5 as stated: nesting a tagged scope inside another
records BOTH spans: the inner scope surfaces as its own span, pushed
before the enclosing one, and the two recorded spans overlap. -/
theorem C5_counterexample :
    (runOps emptyCollector
        [WOp.part WTag.year [WOp.str ['x'], WOp.part WTag.dInteger [WOp.str ['y']]]]).parts =
      [⟨1, 2, WTag.dInteger⟩, ⟨0, 2, WTag.year⟩] ∧
    spansOverlap ⟨1, 2, WTag.dInteger⟩ ⟨0, 2, WTag.year⟩ := by
  constructor
  · decide
  · exact ⟨by decide, by decide⟩

/-- C5 (amended): for every scoped write that produced at least one byte,
the collector retains every span recorded by the inner scopes (inner
scopes surface independently, so nested surfaced spans may overlap) and
appends exactly one additional span for the outer scope, after all inner
spans. -/
theorem C5_collector_nesting_amended (c : Collector) (t : WTag) (ops : List WOp)
    (h : c.output.length < (runOps c ops).output.length) :
    ∃ inner,
      (runOps c ops).parts = c.parts ++ inner ∧
      (runOp c (WOp.part t ops)).parts =
        c.parts ++ inner ++ [⟨c.output.length, (runOps c ops).output.length, t⟩] := by
  obtain ⟨ext, ps, heq, hz, hb⟩ := runOps_extend c ops
  refine ⟨ps, by rw [heq], ?_⟩
  unfold runOp
  rw [if_pos h, heq]

/-- Witness for C5 (amended): a nested scope's span is retained and the
outer scope's span is appended after it. -/
theorem C5_collector_nesting_amended_witness :
    ∃ inner,
      (runOps emptyCollector [WOp.str ['x'], WOp.part WTag.dInteger [WOp.str ['y']]]).parts =
        emptyCollector.parts ++ inner ∧
      (runOp emptyCollector
          (WOp.part WTag.year [WOp.str ['x'], WOp.part WTag.dInteger [WOp.str ['y']]])).parts =
        emptyCollector.parts ++ inner ++
          [⟨emptyCollector.output.length,
            (runOps emptyCollector
              [WOp.str ['x'], WOp.part WTag.dInteger [WOp.str ['y']]]).output.length,
            WTag.year⟩] :=
  C5_collector_nesting_amended emptyCollector WTag.year
    [WOp.str ['x'], WOp.part WTag.dInteger [WOp.str ['y']]] (by decide)

/-! ## Claim C2 -/

/-- Counterexample to C2 as stated: when the engine nests a numeric
sub-part inside a field scope (both mapping to known part atoms, as
`part_atom` provides for the decimal integer part inside datetime
fields), the extraction emits the overlapping spans' text twice, so the
concatenation of the returned parts does not reproduce the formatted
string. -/
theorem C2_counterexample :
    partsText (temporalFormatToParts
        [WOp.part WTag.year [WOp.part WTag.dInteger [WOp.str ['2', '0', '2', '4']]],
         WOp.str [' ', 'x']]) =
      ['2', '0', '2', '4', '2', '0', '2', '4', ' ', 'x'] ∧
    (runOps emptyCollector
        [WOp.part WTag.year [WOp.part WTag.dInteger [WOp.str ['2', '0', '2', '4']]],
         WOp.str [' ', 'x']]).output = ['2', '0', '2', '4', ' ', 'x'] ∧
    partsText (temporalFormatToParts
        [WOp.part WTag.year [WOp.part WTag.dInteger [WOp.str ['2', '0', '2', '4']]],
         WOp.str [' ', 'x']]) ≠
      (runOps emptyCollector
        [WOp.part WTag.year [WOp.part WTag.dInteger [WOp.str ['2', '0', '2', '4']]],
         WOp.str [' ', 'x']]).output := by
  refine ⟨by decide, by decide, by decide⟩

/-- C2 (amended): for every formatted result whose collected spans are
pairwise disjoint, in increasing order, and all of known categories (no
nested or unknown-category scopes), concatenating the text of the parts
returned by `temporal_format_to_parts` reproduces the full formatted
string byte-for-byte, with every uncovered byte range emitted as a part
tagged `literal`. -/
theorem C2_gap_completeness_amended (trace : List WOp)
    (h : flatKnown (runOps emptyCollector trace).output
      (runOps emptyCollector trace).parts 0 = true) :
    partsText (temporalFormatToParts trace) = (runOps emptyCollector trace).output := by
  unfold temporalFormatToParts
  have := dtExtract_concat (runOps emptyCollector trace).output
    (runOps emptyCollector trace).parts 0 h
  simpa using this

/-- Witness for C2 (amended) on a flat two-field trace with a literal gap. -/
theorem C2_gap_completeness_amended_witness :
    partsText (temporalFormatToParts
        [WOp.part WTag.year [WOp.str ['2', '0']], WOp.str [' '],
         WOp.part WTag.hour [WOp.str ['7']]]) =
      (runOps emptyCollector
        [WOp.part WTag.year [WOp.str ['2', '0']], WOp.str [' '],
         WOp.part WTag.hour [WOp.str ['7']]]).output :=
  C2_gap_completeness_amended
    [WOp.part WTag.year [WOp.str ['2', '0']], WOp.str [' '],
     WOp.part WTag.hour [WOp.str ['7']]] (by decide)
